import Mathlib

/-!
Verification of the StreamLedger EPG build engine (`src/build_epg.py`).

This file gives a shallow embedding, in Lean 4, of the EPG source-assignment
and streaming-merge engine of `src/build_epg.py` (v1.2.2), together with
theorems settling the specified behavioral claims.

Modelling conventions:
* Python `set` values are modelled as `Finset String`.  Every place the code
  iterates over a set, the result is insensitive to the iteration order (the
  matched-id loops build sets, the kept-id set is sorted before emission, and
  `per_source_assignments` is an insertion-ordered dict), so the order-free
  `Finset` model is faithful.
* Python `dict` values whose insertion order is observable are modelled as
  association lists (`List (key × value)`), with an overwrite-keeps-position
  update mirroring CPython dict semantics.
* An XMLTV document is modelled by the sequence of completed elements that
  `xml.etree.ElementTree.iterparse` yields before either the end of input or
  a parse failure, plus a flag recording whether a parse exception follows
  that prefix.  `ET.tostring(el)` is modelled by a concrete serialization
  function (for `channel` elements) or a stored body string (for `programme`
  elements, whose `channel` attribute the model carries alongside).
* Filesystem and network effects are supplied by the environment: the fetch
  layer takes the cache state (`String → Option ℕ`, path to file size) and an
  attempt oracle (`ℕ → HttpOutcome`); the pipeline driver takes an `Env`
  recording the curated playlist, configuration knobs, and per-URL fetch
  outcomes.  Float configuration values are modelled as rationals.
-/

/- `Rat.mul` and `Rat.inv` are `@[irreducible]` in Batteries, which blocks
`decide` on concrete coverage ratios; restore their reducibility locally so
the kernel can evaluate rational arithmetic on concrete runs. -/
attribute [local semireducible] Rat.mul Rat.inv

namespace StreamLedger

/-! ## Normalization (`norm`, build_epg.py lines 127-131) -/

/-- Drop leading and trailing whitespace from a character list. -/
def stripChars (l : List Char) : List Char :=
  ((l.dropWhile Char.isWhitespace).reverse.dropWhile Char.isWhitespace).reverse

/-- Python `str.strip()`. -/
def strip (s : String) : String :=
  String.mk (stripChars s.data)

/-- Python `str.lower()` (modelled over the ASCII alphabet). -/
def lower (s : String) : String :=
  String.mk (s.data.map Char.toLower)

/-- A word character in the sense of the regex class `\w` (modelled over the
ASCII alphabet: letters, digits, underscore). -/
def isWordChar (c : Char) : Bool :=
  c.isAlphanum || c = '_'

/-- Replace every run of whitespace by a single space (`re.sub(r"\s+", " ", s)`).
The boolean argument records whether the previous character was whitespace. -/
def collapseWs : List Char → Bool → List Char
  | [], _ => []
  | c :: rest, prev =>
    if c.isWhitespace then
      if prev then collapseWs rest true else ' ' :: collapseWs rest true
    else
      c :: collapseWs rest false

/-- `norm` from build_epg.py lines 127-131: strip, lowercase, collapse
whitespace runs to a single space, delete characters that are neither word
characters nor spaces. -/
def norm (s : String) : String :=
  let t := lower (strip s)
  String.mk ((collapseWs t.data false).filter fun c => isWordChar c || c = ' ')

/-! ## Regex helpers (`TVG_ID_RX`, `TVG_NAME_RX`, lines 93-94)

`rx.search(line)` for the pattern `attr="([^"]*)"` finds the leftmost
occurrence of `attr="`, captures up to the next quote, and requires a closing
quote.  (If no quote at all follows the leftmost occurrence of `attr="`, then
no later occurrence of `attr="` can exist either, so failing there is exactly
the regex behaviour.) -/

/-- Capture the `[^"]*` group after the leftmost occurrence of `pat`. -/
def captureAfter (pat : List Char) : List Char → Option (List Char)
  | [] => none
  | c :: rest =>
    if pat.isPrefixOf (c :: rest) then
      let tail := (c :: rest).drop pat.length
      let cap := tail.takeWhile fun d => d ≠ '"'
      if tail.drop cap.length = [] then none else some cap
    else
      captureAfter pat rest

/-- `TVG_ID_RX.search` / `TVG_NAME_RX.search`, as used at lines 204-205:
`attrPrefix` is the literal part of the pattern including the opening quote
(for example `tvg-id="`). -/
def extractAttr (attrPrefix : String) (line : String) : Option String :=
  (captureAfter attrPrefix.data line.data).map String.mk

/-- `line.split(",", 1)[-1].strip()` (line 208): the text after the first
comma, or the whole line when it has no comma. -/
def dispOf (line : String) : String :=
  match line.data.dropWhile (fun c => c ≠ ',') with
  | [] => strip line
  | _ :: rest => strip (String.mk rest)

/-! ## Target Extractor (`parse_curated_targets`, lines 189-216) -/

/-- Processing of one (already stripped) line of `outputs/curated.m3u` by the
loop body of `parse_curated_targets`.  Returns the updated
`(wanted_ids, wanted_names)` pair. -/
def curatedStep (acc : Finset String × Finset String) (line : String) : Finset String × Finset String :=
  let line := strip line
  if "#EXTINF:".data.isPrefixOf line.data then
    let tvgId := strip ((extractAttr "tvg-id=\"" line).getD "")
    let tvgName := strip ((extractAttr "tvg-name=\"" line).getD "")
    let disp := dispOf line
    let ids := if tvgId = "" then acc.1 else insert tvgId acc.1
    let names := insert (norm (if tvgName = "" then disp else tvgName)) acc.2
    (ids, names)
  else
    acc

/-- `parse_curated_targets` (lines 189-216): returns
`(wanted_ids, wanted_names)`; empty normalized names are discarded at the
end (line 215). -/
def parse_curated_targets (lines : List String) : Finset String × Finset String :=
  let acc := lines.foldl curatedStep (∅, ∅)
  (acc.1, acc.2.erase "")

/-! ## XMLTV document model -/

/-- A completed `<channel>` element: its `id` attribute (raw, `""` when the
attribute is absent, as in `el.attrib.get("id", "")`) and the text of its
`display-name` children in document order (a child with `None` text appears
as `""`, as in `dn.text or ""`). -/
structure RawChannel where
  id : String
  displayNames : List String
deriving DecidableEq

/-- A completed `<programme>` element: the raw value of its `channel`
attribute (as in `el.attrib.get("channel", "")`) and `body`, which stands for
`ET.tostring(el)` — the element's full serialized text. -/
structure RawProgramme where
  channel : String
  body : String
deriving DecidableEq

/-- One completed top-level element yielded by
`ET.iterparse(f, events=("end",))`, restricted to the two tags the code
inspects. -/
inductive XmlEvent where
  | channel (c : RawChannel)
  | programme (p : RawProgramme)
deriving DecidableEq

/-- A fetched EPG source file: its cache path, the sequence of completed
elements `iterparse` yields before the end of input or a parse failure, and
a flag recording whether a parse exception is raised after that prefix. -/
structure SourceDoc where
  path : String
  events : List XmlEvent
  parseError : Bool
deriving DecidableEq

/-- Model of `ET.tostring(el, encoding="utf-8")` for a `channel` element
(line 250).  The exact text is irrelevant to the claims; what matters is that
it is a deterministic, non-empty serialization. -/
def serializeChannel (c : RawChannel) : String :=
  "<channel id=\"" ++ c.id ++ "\">" ++
    String.join (c.displayNames.map fun d => "<display-name>" ++ d ++ "</display-name>") ++
    "</channel>"

/-! ## Association lists (insertion-ordered Python dicts) -/

/-- Lookup in an association list (first entry with the given key). -/
def alookup {α : Type} (l : List (String × α)) (k : String) : Option α :=
  match l with
  | [] => none
  | (k0, v0) :: rest => if k0 = k then some v0 else alookup rest k

/-- `d[k] = v` on a CPython dict: overwrite in place when the key is present,
append otherwise. -/
def aset {α : Type} (l : List (String × α)) (k : String) (v : α) : List (String × α) :=
  match l with
  | [] => [(k, v)]
  | (k0, v0) :: rest => if k0 = k then (k0, v) :: rest else (k0, v0) :: aset rest k v

/-- `d.setdefault(k, []).append(v)` on a dict of lists (line 263). -/
def aappend (l : List (String × List String)) (k : String) (v : String) : List (String × List String) :=
  match l with
  | [] => [(k, [v])]
  | (k0, vs) :: rest => if k0 = k then (k0, vs ++ [v]) :: rest else (k0, vs) :: aappend rest k v

/-! ## Channel Indexer (`index_epg_channels`, lines 223-256) -/

/-- Loop body of `index_epg_channels` applied to one completed element: skip
programmes; for a channel, strip the id, skip the element when the id is
empty, normalize the display names dropping empties, and store both maps
under the id. -/
def indexStep (acc : List (String × List String) × List (String × String)) (e : XmlEvent) :
    List (String × List String) × List (String × String) :=
  match e with
  | .programme _ => acc
  | .channel c =>
    let cid := strip c.id
    if cid = "" then acc
    else
      let norms := (c.displayNames.map norm).filter fun n => n ≠ ""
      (aset acc.1 cid norms, aset acc.2 cid (serializeChannel c))

/-- The fold of `indexStep` over a sequence of completed elements. -/
def indexChannelsEvents (evs : List XmlEvent) :
    List (String × List String) × List (String × String) :=
  evs.foldl indexStep ([], [])

/-- `index_epg_channels` (lines 223-256).  Both dictionaries are created
before the `try:` block, so when a parse exception interrupts the stream the
`except` branch logs and the function returns the maps built from the
elements completed so far: the result is the fold over the yielded prefix
whether or not a parse error follows it, and no exception propagates. -/
def index_epg_channels (doc : SourceDoc) :
    List (String × List String) × List (String × String) :=
  indexChannelsEvents doc.events

/-- `build_name_to_ids` (lines 259-264): invert the display-name index into
a name → list-of-ids map, preserving insertion order. -/
def build_name_to_ids (idToDisplayNorms : List (String × List String)) :
    List (String × List String) :=
  idToDisplayNorms.foldl
    (fun acc p => p.2.foldl (fun acc2 n => aappend acc2 n p.1) acc) []

/-! ## Assignment Engine (main, lines 377-423) -/

/-- The mutable state of the assignment pass across sources. -/
structure AssignState where
  remainingIds : Finset String
  remainingNames : Finset String
  assignments : List (SourceDoc × Finset String)
  globalXml : List (String × String)
  keptIds : Finset String
deriving DecidableEq

/-- Initial assignment state (lines 378-383). -/
def AssignState.init (wi wn : Finset String) : AssignState :=
  ⟨wi, wn, [], [], ∅⟩

/-- Lines 391-393: merge a source's id → serialized-channel map into the
global one, first writer wins. -/
def mergeChannelXml (g : List (String × String)) (l : List (String × String)) :
    List (String × String) :=
  l.foldl (fun acc p => if (alookup acc p.1).isSome then acc else acc ++ [p]) g

/-- Lines 397-401 (tvg-id priority): the ids of `remaining_ids` that are keys
of this source's display-name index. -/
def idMatchedOf (st : AssignState) (doc : SourceDoc) : Finset String :=
  st.remainingIds.filter fun cid => (alookup (index_epg_channels doc).1 cid).isSome = true

/-- Lines 404-410 (name fallback): for each remaining name present as a key
of the source's name → ids map, the first id in that name's list. -/
def nameMatchedOf (st : AssignState) (doc : SourceDoc) : Finset String :=
  let nameToIds := build_name_to_ids (index_epg_channels doc).1
  st.remainingNames.biUnion fun nm => ((alookup nameToIds nm).bind List.head?).toFinset

/-- `per_source_assignments[epg_path] = matched_ids` (line 413): dict update
keyed by the source's path, overwriting in place on a repeated path. -/
def updateAssign (l : List (SourceDoc × Finset String)) (d : SourceDoc) (v : Finset String) :
    List (SourceDoc × Finset String) :=
  match l with
  | [] => [(d, v)]
  | (d0, v0) :: rest =>
    if d0.path = d.path then (d0, v) :: rest else (d0, v0) :: updateAssign rest d v

/-- Body of the per-source loop (lines 389-423), after the early-exit check:
index the source, merge its records first-writer-wins, compute the matched
ids (id priority then name fallback), and if any matched, record the
assignment, extend the kept set, and shrink both outstanding pools. -/
def processSource (st : AssignState) (doc : SourceDoc) : AssignState :=
  let idx := index_epg_channels doc
  let g := mergeChannelXml st.globalXml idx.2
  let matched := idMatchedOf st doc ∪ nameMatchedOf st doc
  if matched = ∅ then
    { st with globalXml := g }
  else
    { remainingIds := st.remainingIds \ matched
      remainingNames := st.remainingNames.filter fun nm =>
        alookup (build_name_to_ids idx.1) nm = none
      assignments := updateAssign st.assignments doc matched
      globalXml := g
      keptIds := st.keptIds ∪ matched }

/-- The per-source loop (lines 385-423): sources in configured order, with
the early `break` when both outstanding pools are empty (lines 386-387). -/
def assignLoop (st : AssignState) : List SourceDoc → AssignState
  | [] => st
  | doc :: rest =>
    if st.remainingIds = ∅ ∧ st.remainingNames = ∅ then st
    else assignLoop (processSource st doc) rest

/-! ## Merge Writer (`write_final_xml`, lines 271-308) -/

/-- The XML declaration line written at line 280. -/
def xmlDeclLine : String := "<?xml version=\"1.0\" encoding=\"UTF-8\"?>"

/-- The root opening tag written at line 281. -/
def tvOpenLine : String := "<tv>"

/-- The root closing tag written at line 308. -/
def tvCloseLine : String := "</tv>"

/-- The programme pass over one source (lines 296-304): for every completed
`programme` element whose stripped `channel` attribute is in the assigned id
set, emit its serialized form.  A parse exception in this pass is caught at
line 305, so the emitted lines are those of the yielded prefix. -/
def sourceProgrammeLines (doc : SourceDoc) (ids : Finset String) : List String :=
  doc.events.filterMap fun e =>
    match e with
    | .channel _ => none
    | .programme p => if strip p.channel ∈ ids then some p.body else none

/-- The writer's observable behaviour: the sequence of fragments written
(each terminated by a newline in the file) and the list of sources the
programme pass re-opens. -/
structure WriterOutput where
  lines : List String
  opened : List SourceDoc
deriving DecidableEq

/-- `write_final_xml` (lines 271-308): header, then one stored record per
sorted kept id — skipping ids whose record is missing or empty (`if ch_xml:`
at line 286) — then, for each assignment entry in insertion order whose id
set is non-empty (`if not ids: continue` at lines 292-293), the programmes of
that source whose channel is assigned, then the closing tag. -/
def write_final_xml (keptAllIds : Finset String) (channelXmlById : List (String × String))
    (perSourceAssignments : List (SourceDoc × Finset String)) : WriterOutput :=
  let chanLines := (keptAllIds.sort (· ≤ ·)).filterMap fun cid =>
    match alookup channelXmlById cid with
    | some s => if s = "" then none else some s
    | none => none
  let nonEmpty := perSourceAssignments.filter fun pr => decide (pr.2 ≠ ∅)
  let progLines := nonEmpty.flatMap fun pr => sourceProgrammeLines pr.1 pr.2
  { lines := xmlDeclLine :: tvOpenLine :: (chanLines ++ progLines ++ [tvCloseLine])
    opened := nonEmpty.map fun pr => pr.1 }

/-! ## Source Fetcher (`http_get_to_file` lines 138-154, `download_epg` lines 157-176) -/

/-- The outcome of one `requests.get` + body-streaming attempt, as the code
can observe it: a response with a status code and a number of bytes written,
or an exception (transport error, timeout, write failure) with the exception
type name. -/
inductive HttpOutcome where
  | response (status : Nat) (bytes : Nat)
  | exception (name : String)
deriving DecidableEq

/-- `http_get_to_file` (lines 138-154): `(ok, reason)`; never raises.  A
status ≥ 400 fails with `http=<code>`, a zero-byte result fails with
`empty`, an exception fails with `exc=<type>`. -/
def http_get_to_file (o : HttpOutcome) : Bool × String :=
  match o with
  | .response status bytes =>
    if 400 ≤ status then (false, "http=" ++ toString status)
    else if 0 < bytes then (true, "ok") else (false, "empty")
  | .exception n => (false, "exc=" ++ n)

/-- The retry loop of `download_epg` (lines 168-176).  `fuel` is the number
of attempts left, `i` the index of the next attempt in the oracle `net`,
`last` the reason of the previous attempt (`"unknown"` before the first).
Returns the `(path_or_none, reason)` result together with the total number
of attempts made. -/
def downloadAttempts (net : Nat → HttpOutcome) (dest : String) :
    Nat → Nat → String → (Option String × String) × Nat
  | 0, i, last => ((none, last), i)
  | fuel + 1, i, _ =>
    let r := http_get_to_file (net i)
    if r.1 then ((some dest, r.2), i + 1)
    else downloadAttempts net dest fuel (i + 1) r.2

/-- Split a character list on `/`. -/
def splitSlash (l : List Char) : List (List Char) :=
  match l with
  | [] => [[]]
  | c :: rest =>
    let r := splitSlash rest
    if c = '/' then [] :: r
    else
      match r with
      | [] => [[c]]
      | s :: ss => (c :: s) :: ss

/-- `Path(url).name`: the final path component of the URL (empty segments
collapsed, as in `pathlib`; URLs are treated as plain `/`-separated paths). -/
def lastComponent (url : String) : String :=
  String.mk (((((splitSlash url.data).filter fun s => s ≠ []).getLast?).getD []))

/-- The cache destination chosen at line 162: `CACHE_DIR / Path(url).name`. -/
def cachePathOf (url : String) : String :=
  "cache/epg/" ++ lastComponent url

/-- `download_epg` (lines 157-176).  `fs` is the cache directory state
(path → size of an existing file); `net` the per-attempt HTTP oracle; the
user-agent and timeout parameters only shape the oracle's outcomes and are
omitted.  Returns the `(path_or_none, reason)` result and the number of HTTP
attempts made (0 on a cache hit).  The Lean function is total: no exception
escapes. -/
def download_epg (fs : String → Option Nat) (url : String) (retries : Int)
    (net : Nat → HttpOutcome) : (Option String × String) × Nat :=
  let dest := cachePathOf url
  if (fs dest).isSome ∧ 0 < (fs dest).getD 0 then ((some dest, "cache_hit"), 0)
  else downloadAttempts net dest (max 1 (retries + 1)).toNat 0 "unknown"

/-! ## Report (`load_report`/`write_report`/`add_warning`, lines 105-120) -/

/-- One entry of `rep["epg"]["sources"]` (lines 363-366). -/
structure SourceStatus where
  url : String
  ok : Bool
  reason : String
  file : Option String
deriving DecidableEq

/-- The report fields the engine reads or writes.  `warnings` models
`rep.setdefault("warnings", [])` (absent key and empty list coincide). -/
structure Report where
  warnings : List String
  sources : Option (List SourceStatus)
  matched : Option Nat
  targets : Option Nat
  coverage : Option ℚ
deriving DecidableEq

/-- `add_warning` (lines 118-120). -/
def add_warning (rep : Report) (msg : String) : Report :=
  { rep with warnings := rep.warnings ++ [msg] }

/-- `round(x, 4)` at line 435 (Python rounds half to even; the claims never
inspect the rounded value, and the two conventions agree except at exact
half-ten-thousandths). -/
def round4 (q : ℚ) : ℚ :=
  (round (q * 10000) : ℤ) / 10000

/-! ## Pipeline driver (`main`, lines 326-451) -/

/-- The run environment: everything `main` reads from outside.  `fetch url`
is the observable outcome of `download_epg` for that URL together with the
parsed content of the returned cache file; the `user_agent`, `timeout_sec`
and `retries` knobs only shape those outcomes and are absorbed into it
(`download_epg` itself is verified separately). -/
structure Env where
  curatedExists : Bool
  curatedLines : List String
  softMin : ℚ
  hardFail : ℚ
  epgUrls : List String
  fetch : String → Option SourceDoc × String
  initialReport : Report

/-- The observable result of one run of `main`. -/
structure RunResult where
  exitCode : Nat
  reportWritten : Bool
  report : Report
  output : Option WriterOutput
deriving DecidableEq

/-- Line 351: the curated target sets of the run. -/
def targets (env : Env) : Finset String × Finset String :=
  parse_curated_targets env.curatedLines

/-- Lines 359-367: per-URL fetch outcomes in configured order. -/
def fetchResults (env : Env) : List (String × (Option SourceDoc × String)) :=
  env.epgUrls.map fun u => (u, env.fetch u)

/-- The `per_url_status` list stored at line 370. -/
def perUrlStatus (env : Env) : List SourceStatus :=
  (fetchResults env).map fun t =>
    ⟨t.1, t.2.1.isSome, t.2.2, t.2.1.map fun d => d.path⟩

/-- `epg_paths` (line 356): the successfully fetched sources, in order. -/
def fetchedDocs (env : Env) : List SourceDoc :=
  (fetchResults env).filterMap fun t => t.2.1

/-- The assignment state after the per-source loop (lines 377-423). -/
def assignFinal (env : Env) : AssignState :=
  assignLoop (AssignState.init (targets env).1 (targets env).2) (fetchedDocs env)

/-- `len(wanted_ids) if wanted_ids else len(wanted_names)` (lines 432-434). -/
def targetChannels (env : Env) : Nat :=
  if (targets env).1 ≠ ∅ then (targets env).1.card else (targets env).2.card

/-- The coverage ratio computed at line 432 (exact rational arithmetic in
place of Python floats). -/
def mainCoverage (env : Env) : ℚ :=
  ((assignFinal env).keptIds.card : ℚ) / ((max 1 (targetChannels env) : Nat) : ℚ)

/-- The soft-threshold warning added at line 438 (the code interpolates the
two values with fixed-point formatting; the tag prefix is the observable). -/
def softWarnMsg (c softMin : ℚ) : String :=
  "epg_coverage_below_soft_min:" ++ toString c ++ "<" ++ toString softMin

/-- The hard-threshold warning added at line 441. -/
def hardWarnMsg (c hardFail : ℚ) : String :=
  "epg_coverage_below_hard_fail:" ++ toString c ++ "<" ++ toString hardFail

/-- Lines 431-451: record the coverage metrics, add the soft warning when
below `soft_min`, hard-fail (report written, exit 2, no output) when below
`hard_fail_below`, otherwise write the output artifact, write the report and
exit 0. -/
def coverageGate (env : Env) (rep : Report) : RunResult :=
  let c := mainCoverage env
  let st := assignFinal env
  let rep := { rep with
    matched := some st.keptIds.card
    targets := some (targetChannels env)
    coverage := some (round4 c) }
  let rep := if c < env.softMin then add_warning rep (softWarnMsg c env.softMin) else rep
  if c < env.hardFail then
    { exitCode := 2, reportWritten := true
      report := add_warning rep (hardWarnMsg c env.hardFail), output := none }
  else
    { exitCode := 0, reportWritten := true, report := rep
      output := some (write_final_xml st.keptIds st.globalXml st.assignments) }

/-- `main` (lines 326-451).  The branches mirror the return points of the
source: missing `outputs/curated.m3u` (line 327, exits without touching the
report), no sources configured (line 344), no source fetched (line 372),
zero matches (line 425), then the coverage gate. -/
def main (env : Env) : RunResult :=
  if env.curatedExists = false then
    { exitCode := 2, reportWritten := false, report := env.initialReport, output := none }
  else if env.epgUrls = [] then
    { exitCode := 2, reportWritten := true
      report := add_warning env.initialReport "epg_no_sources_configured", output := none }
  else
    let rep := { env.initialReport with sources := some (perUrlStatus env) }
    if fetchedDocs env = [] then
      { exitCode := 2, reportWritten := true
        report := add_warning rep "epg_all_sources_failed_download", output := none }
    else if (assignFinal env).keptIds = ∅ then
      { exitCode := 2, reportWritten := true
        report := { add_warning rep "epg_no_matches_found" with coverage := some 0 }
        output := none }
    else
      coverageGate env rep

/-! ## Concrete example data used by witnesses and counterexamples -/

/-- A source file holding one channel `x` under display name `alpha`. -/
def docA : SourceDoc := ⟨"a.xml", [.channel ⟨"x", ["alpha"]⟩], false⟩

/-- A source file holding the same channel `x` under display name `beta`. -/
def docB : SourceDoc := ⟨"b.xml", [.channel ⟨"x", ["beta"]⟩], false⟩

/-- A source file whose parse fails after one complete channel element. -/
def docBad : SourceDoc := ⟨"bad.xml", [.channel ⟨"a", ["x"]⟩], true⟩

/-- The empty report (no prior `outputs/report.json`). -/
def emptyReport : Report := ⟨[], none, none, none, none⟩

/-- A run whose curated list names two channels by display name only, where
the first source matches `alpha` to id `x` and the second matches `beta` to
the same id `x`. -/
def envC1 : Env :=
  { curatedExists := true
    curatedLines := ["#EXTINF:-1 tvg-name=\"alpha\",A", "#EXTINF:-1 tvg-name=\"beta\",B"]
    softMin := 4/5
    hardFail := 3/10
    epgUrls := ["http://one.example/a.xml", "http://two.example/b.xml"]
    fetch := fun u => if u = "http://one.example/a.xml" then (some docA, "ok") else (some docB, "ok")
    initialReport := emptyReport }

/-- A run with one id target (`x`) plus a second name-only target, against a
source whose channels `y` and `z` match the two names but not the id. -/
def envC2 : Env :=
  { curatedExists := true
    curatedLines := ["#EXTINF:-1 tvg-id=\"x\" tvg-name=\"nameone\",A",
                     "#EXTINF:-1 tvg-name=\"nametwo\",B"]
    softMin := 4/5
    hardFail := 3/10
    epgUrls := ["http://e.example/guide.xml"]
    fetch := fun _ =>
      (some ⟨"guide.xml", [.channel ⟨"y", ["nameone"]⟩, .channel ⟨"z", ["nametwo"]⟩], false⟩, "ok")
    initialReport := emptyReport }

/-- A run with two id targets of which exactly one is matched: coverage 1/2,
between the default hard (0.30) and soft (0.80) thresholds. -/
def envC3 : Env :=
  { curatedExists := true
    curatedLines := ["#EXTINF:-1 tvg-id=\"x\" tvg-name=\"alphaq\",Axx",
                     "#EXTINF:-1 tvg-id=\"y\" tvg-name=\"betaq\",Bxx"]
    softMin := 4/5
    hardFail := 3/10
    epgUrls := ["http://e.example/guide.xml"]
    fetch := fun _ => (some ⟨"guide.xml", [.channel ⟨"x", ["Zeta"]⟩], false⟩, "ok")
    initialReport := emptyReport }

/-- A fully successful run: one id target, matched by the only source, with
one relevant and one irrelevant programme. -/
def envOK : Env :=
  { curatedExists := true
    curatedLines := ["#EXTINF:-1 tvg-id=\"x\" tvg-name=\"alpha\",Alpha TV"]
    softMin := 4/5
    hardFail := 3/10
    epgUrls := ["http://e.example/guide.xml"]
    fetch := fun _ =>
      (some ⟨"guide.xml",
        [.channel ⟨"x", ["Alpha"]⟩, .programme ⟨"x", "<programme channel=\"x\"/>"⟩,
         .programme ⟨"q", "<programme channel=\"q\"/>"⟩], false⟩, "ok")
    initialReport := emptyReport }

/-- A run whose curated input file is missing. -/
def envMissing : Env :=
  { curatedExists := false
    curatedLines := []
    softMin := 4/5
    hardFail := 3/10
    epgUrls := ["http://e.example/guide.xml"]
    fetch := fun _ => (none, "http=404")
    initialReport := emptyReport }

/-- The writer output of the successful run `envOK`. -/
def outOK : WriterOutput :=
  ((main envOK).output).getD ⟨[], []⟩

/-- An empty cache directory. -/
def fsEmpty : String → Option Nat := fun _ => none

/-- A network oracle whose every attempt raises a timeout exception. -/
def netTimeout : Nat → HttpOutcome := fun _ => .exception "Timeout"

/-- A cache directory holding a non-empty `cache/epg/guide.xml`. -/
def fsGuide : String → Option Nat :=
  fun p => if p = "cache/epg/guide.xml" then some 5 else none

/-! ## Lemmas about the fetch layer -/

theorem downloadAttempts_count_le (net : Nat → HttpOutcome) (dest : String) :
    ∀ fuel i last, (downloadAttempts net dest fuel i last).2 ≤ i + fuel := by
  intro fuel
  induction fuel with
  | zero => intro i last; simp [downloadAttempts]
  | succ k ih =>
    intro i last
    simp only [downloadAttempts]
    split
    · simp
    · calc (downloadAttempts net dest k (i + 1) (http_get_to_file (net i)).2).2
          ≤ (i + 1) + k := ih _ _
        _ = i + (k + 1) := by omega

theorem downloadAttempts_allFail (net : Nat → HttpOutcome) (dest : String) :
    ∀ fuel i last, (∀ j, j < fuel → (http_get_to_file (net (i + j))).1 = false) →
      downloadAttempts net dest fuel i last =
        ((none, if fuel = 0 then last else (http_get_to_file (net (i + fuel - 1))).2), i + fuel) := by
  intro fuel
  induction fuel with
  | zero => intro i last _; simp [downloadAttempts]
  | succ k ih =>
    intro i last h
    have h0 : (http_get_to_file (net i)).1 = false := by simpa using h 0 (by omega)
    have hrec := ih (i + 1) (http_get_to_file (net i)).2 (fun j hj => by
      have hh := h (j + 1) (by omega)
      rwa [show i + (j + 1) = i + 1 + j by omega] at hh)
    simp only [downloadAttempts, h0, Bool.false_eq_true, if_false]
    rw [hrec]
    rcases Nat.eq_zero_or_pos k with hk | hk
    · subst hk; simp
    · have hk1 : ¬ (k = 0) := by omega
      have hk2 : ¬ (k + 1 = 0) := by omega
      simp only [hk1, hk2, if_false]
      rw [show i + 1 + k - 1 = i + (k + 1) - 1 by omega, show i + 1 + k = i + (k + 1) by omega]

/-! ## Claim C6 — fetch contract -/

/-- C6 (confirmed): `download_epg` never raises (it is a total function of
the cache state and the attempt oracle); with a non-empty destination file it
returns the cache path with reason `cache_hit` making no attempt; otherwise,
for a non-negative retry count, it makes at most `retries + 1` attempts,
classifies a status ≥ 400, any transport exception, or a zero-byte result as
a failed attempt, and after exhausting all attempts returns `none` together
with the reason of the last attempt. -/
theorem spec_c6 (fs : String → Option Nat) (url : String) (retries : Int)
    (net : Nat → HttpOutcome) (hret : 0 ≤ retries) :
    (((fs (cachePathOf url)).isSome ∧ 0 < ((fs (cachePathOf url)).getD 0)) →
       download_epg fs url retries net = ((some (cachePathOf url), "cache_hit"), 0)) ∧
    (download_epg fs url retries net).2 ≤ (retries + 1).toNat ∧
    (¬ ((fs (cachePathOf url)).isSome ∧ 0 < ((fs (cachePathOf url)).getD 0)) →
       (∀ j, j < (retries + 1).toNat → (http_get_to_file (net j)).1 = false) →
       download_epg fs url retries net =
         ((none, (http_get_to_file (net ((retries + 1).toNat - 1))).2), (retries + 1).toNat)) ∧
    (∀ status bytes, (http_get_to_file (HttpOutcome.response status bytes)).1 = false ↔
       (400 ≤ status ∨ bytes = 0)) ∧
    (∀ nm, (http_get_to_file (HttpOutcome.exception nm)).1 = false) := by
  have hmax : max 1 (retries + 1) = retries + 1 := max_eq_right (by omega)
  have hpos : 1 ≤ (retries + 1).toNat := by omega
  refine ⟨?_, ?_, ?_, ?_, ?_⟩
  · intro h
    simp only [download_epg]
    rw [if_pos h]
  · simp only [download_epg]
    split
    · simp
    · rw [hmax]
      simpa using downloadAttempts_count_le net (cachePathOf url) (retries + 1).toNat 0 "unknown"
  · intro hmiss hfail
    simp only [download_epg]
    rw [if_neg hmiss, hmax]
    have := downloadAttempts_allFail net (cachePathOf url) (retries + 1).toNat 0 "unknown"
      (fun j hj => by simpa using hfail j hj)
    rw [this]
    have hne : ¬ ((retries + 1).toNat = 0) := by omega
    simp [hne]
  · intro status bytes
    simp only [http_get_to_file]
    split_ifs with h1 h2 <;> simp <;> omega
  · intro nm
    rfl

/-- Witness for C6: an empty cache, one retry allowed, every attempt raising
a timeout: two attempts are made and the last reason is returned. -/
theorem spec_c6_witness :
    download_epg fsEmpty "http://h.example/a.xml" 1 netTimeout = ((none, "exc=Timeout"), 2) ∧
    (download_epg fsEmpty "http://h.example/a.xml" 1 netTimeout).2 ≤ 2 := by
  have h := spec_c6 fsEmpty "http://h.example/a.xml" 1 netTimeout (by decide)
  have h3 := h.2.2.1 (by decide) (fun j _ => rfl)
  exact ⟨by rw [h3]; rfl, by rw [h3]; decide⟩

/-! ## Claim C10 — cache destination collisions -/

/-- C10 (confirmed): the cache destination depends only on the final path
component of the URL, so two distinct URLs with equal final components share
one cache file, and once that file exists non-empty, fetching the second URL
returns the first URL's cached file with reason `cache_hit` instead of
downloading its own document. -/
theorem spec_c10 (u1 u2 : String) (fs : String → Option Nat) (retries : Int)
    (net : Nat → HttpOutcome) (sz : Nat) (hne : u1 ≠ u2)
    (hname : lastComponent u1 = lastComponent u2)
    (hfs : fs (cachePathOf u1) = some sz) (hsz : 0 < sz) :
    cachePathOf u2 = cachePathOf u1 ∧
    download_epg fs u2 retries net = ((some (cachePathOf u1), "cache_hit"), 0) := by
  have hp : cachePathOf u2 = cachePathOf u1 := by
    unfold cachePathOf
    rw [hname]
  refine ⟨hp, ?_⟩
  unfold download_epg
  rw [hp, if_pos (by rw [hfs]; exact ⟨rfl, hsz⟩)]

/-- Witness for C10: two URLs on different hosts both ending in `guide.xml`,
with the shared cache file already present. -/
theorem spec_c10_witness :
    cachePathOf "http://b.example/y/guide.xml" = cachePathOf "http://a.example/x/guide.xml" ∧
    download_epg fsGuide "http://b.example/y/guide.xml" 2 netTimeout =
      ((some (cachePathOf "http://a.example/x/guide.xml"), "cache_hit"), 0) :=
  spec_c10 "http://a.example/x/guide.xml" "http://b.example/y/guide.xml" fsGuide 2 netTimeout 5
    (by decide) (by decide) (by decide) (by decide)

/-! ## Claim C4 — parse-failure behaviour of the Channel Indexer -/

/-- Counterexample for C4 as stated: a source whose parse fails after one
complete channel element yields a non-empty index (both maps non-empty), not
an empty one. -/
theorem spec_c4_counterexample :
    docBad.parseError = true ∧
    (index_epg_channels docBad).1 ≠ [] ∧ (index_epg_channels docBad).2 ≠ [] := by
  decide

/-- C4 (amended): a parse exception never propagates — the indexer returns
the index built from the elements completed before the failure, which need
not be empty — and the run continues with the remaining sources. -/
theorem spec_c4_amended :
    (∀ (p : String) (evs : List XmlEvent) (err : Bool),
       index_epg_channels ⟨p, evs, err⟩ = indexChannelsEvents evs) ∧
    (∀ (st : AssignState) (doc : SourceDoc) (rest : List SourceDoc),
       ¬ (st.remainingIds = ∅ ∧ st.remainingNames = ∅) →
       assignLoop st (doc :: rest) = assignLoop (processSource st doc) rest) := by
  constructor
  · intro p evs err
    rfl
  · intro st doc rest h
    simp [assignLoop, h]

/-- Witness for C4's amended statement, at the failing source `docBad`. -/
theorem spec_c4_witness :
    index_epg_channels docBad = indexChannelsEvents docBad.events ∧
    assignLoop (AssignState.init ∅ {"alpha"}) (docBad :: []) =
      assignLoop (processSource (AssignState.init ∅ {"alpha"}) docBad) [] :=
  ⟨spec_c4_amended.1 "bad.xml" docBad.events true,
   spec_c4_amended.2 (AssignState.init ∅ {"alpha"}) docBad [] (by decide)⟩

/-! ## Claim C5 — report persistence -/

/-- Counterexample for C5 as stated: when the curated input list is missing,
the process exits with code 2 without writing the report artifact. -/
theorem spec_c5_counterexample :
    envMissing.curatedExists = false ∧
    (main envMissing).reportWritten = false ∧ (main envMissing).exitCode = 2 := by
  decide

theorem coverageGate_reportWritten (env : Env) (rep : Report) :
    (coverageGate env rep).reportWritten = true := by
  simp only [coverageGate]
  split <;> rfl

/-- C5 (amended): on every exit path other than the missing-curated-input
one — no sources configured, no sources fetched, zero matches, hard coverage
failure, and success — the report artifact is written before the process
exits. -/
theorem spec_c5_amended (env : Env) (h : env.curatedExists = true) :
    (main env).reportWritten = true := by
  simp only [main, h, Bool.true_eq_false, if_false]
  split_ifs <;> first
    | rfl
    | exact coverageGate_reportWritten env _

/-- Witness for C5's amended statement, at the successful run `envOK`. -/
theorem spec_c5_witness : (main envOK).reportWritten = true :=
  spec_c5_amended envOK rfl

/-! ## Claim C8 — determinism -/

/-- C8 (confirmed): the embedded pipeline is a pure function of the run
environment, so two runs over an unchanged configuration, curated list,
cache and report state produce identical results (in particular
byte-identical output artifacts); moreover the channel section is emitted in
the canonical sorted order of kept ids, which is independent of any
iteration order (all set-valued state is order-free by construction). -/
theorem spec_c8 (e1 e2 : Env)
    (h1 : e1.curatedExists = e2.curatedExists) (h2 : e1.curatedLines = e2.curatedLines)
    (h3 : e1.softMin = e2.softMin) (h4 : e1.hardFail = e2.hardFail)
    (h5 : e1.epgUrls = e2.epgUrls) (h6 : e1.fetch = e2.fetch)
    (h7 : e1.initialReport = e2.initialReport) :
    main e1 = main e2 ∧
    List.Sorted (· ≤ ·) ((assignFinal e1).keptIds.sort (· ≤ ·)) := by
  obtain ⟨a1, a2, a3, a4, a5, a6, a7⟩ := e1
  obtain ⟨b1, b2, b3, b4, b5, b6, b7⟩ := e2
  simp only at h1 h2 h3 h4 h5 h6 h7
  subst h1 h2 h3 h4 h5 h6 h7
  exact ⟨rfl, Finset.sort_sorted _ _⟩

/-- Witness for C8, instantiated at the successful run `envOK`. -/
theorem spec_c8_witness :
    main envOK = main envOK ∧
    List.Sorted (· ≤ ·) ((assignFinal envOK).keptIds.sort (· ≤ ·)) :=
  spec_c8 envOK envOK rfl rfl rfl rfl rfl rfl rfl

/-! ## Lemmas about association lists -/

theorem alookup_mem {α : Type} :
    ∀ {l : List (String × α)} {k : String} {v : α}, alookup l k = some v → (k, v) ∈ l := by
  intro l
  induction l with
  | nil => intro k v h; simp [alookup] at h
  | cons p rest ih =>
    intro k v h
    obtain ⟨k0, v0⟩ := p
    simp only [alookup] at h
    split at h
    · next heq =>
      cases h
      subst heq
      exact List.mem_cons_self _ _
    · exact List.mem_cons_of_mem _ (ih h)

theorem mem_imp_alookup_isSome {α : Type} :
    ∀ {l : List (String × α)} {k : String} {v : α}, (k, v) ∈ l → (alookup l k).isSome = true := by
  intro l
  induction l with
  | nil => intro k v h; simp at h
  | cons p rest ih =>
    intro k v h
    obtain ⟨k0, v0⟩ := p
    rcases List.mem_cons.mp h with h | h
    · cases h
      simp [alookup]
    · by_cases hk : k0 = k
      · simp [alookup, hk]
      · simpa [alookup, hk] using ih h

theorem mem_aset {α : Type} :
    ∀ {l : List (String × α)} {k : String} {v : α} {p : String × α},
      p ∈ aset l k v → p.2 = v ∨ p ∈ l := by
  intro l
  induction l with
  | nil =>
    intro k v p h
    simp only [aset, List.mem_singleton] at h
    subst h
    exact Or.inl rfl
  | cons q rest ih =>
    intro k v p h
    obtain ⟨k0, v0⟩ := q
    simp only [aset] at h
    split at h
    · rcases List.mem_cons.mp h with h | h
      · subst h; exact Or.inl rfl
      · exact Or.inr (List.mem_cons_of_mem _ h)
    · rcases List.mem_cons.mp h with h | h
      · subst h; exact Or.inr (List.mem_cons_self _ _)
      · rcases ih h with h | h
        · exact Or.inl h
        · exact Or.inr (List.mem_cons_of_mem _ h)

theorem alookup_aset_isSome {α : Type} :
    ∀ (l : List (String × α)) (k : String) (v : α) (k2 : String),
      (alookup (aset l k v) k2).isSome = true ↔ (k2 = k ∨ (alookup l k2).isSome = true) := by
  intro l
  induction l with
  | nil =>
    intro k v k2
    by_cases hk : k = k2
    · simp [aset, alookup, hk]
    · simp [aset, alookup, hk]
      exact fun h => hk h.symm
  | cons q rest ih =>
    intro k v k2
    obtain ⟨k0, v0⟩ := q
    simp only [aset]
    by_cases h0 : k0 = k
    · subst h0
      by_cases h2 : k0 = k2
      · simp [alookup, h2]
      · simp [alookup, h2]
        exact fun h => (h2 h.symm).elim
    · by_cases h2 : k0 = k2
      · subst h2
        have hne : ¬ (k0 = k) := h0
        simp [aset, alookup, hne]
      · simp only [if_neg h0, alookup, if_neg h2]
        exact ih k v k2

theorem alookup_append_isSome {α : Type} :
    ∀ (l1 l2 : List (String × α)) (k : String),
      (alookup (l1 ++ l2) k).isSome = true ↔
        ((alookup l1 k).isSome = true ∨ (alookup l2 k).isSome = true) := by
  intro l1
  induction l1 with
  | nil => intro l2 k; simp [alookup]
  | cons q rest ih =>
    intro l2 k
    obtain ⟨k0, v0⟩ := q
    by_cases h0 : k0 = k
    · simp [alookup, h0]
    · simpa [alookup, h0] using ih l2 k

/-! ## Lemmas about the first-writer-wins merge -/

theorem mem_mergeChannelXml :
    ∀ (l g : List (String × String)) (p : String × String),
      p ∈ mergeChannelXml g l → p ∈ g ∨ p ∈ l := by
  intro l
  induction l with
  | nil => intro g p h; exact Or.inl h
  | cons q rest ih =>
    intro g p h
    simp only [mergeChannelXml, List.foldl_cons] at h
    rcases ih _ p h with h | h
    · split at h
      · exact Or.inl h
      · rcases List.mem_append.mp h with h | h
        · exact Or.inl h
        · exact Or.inr (by simpa using Or.inl (List.mem_singleton.mp h))
    · exact Or.inr (List.mem_cons_of_mem _ h)

theorem alookup_mergeChannelXml_isSome_left :
    ∀ (l g : List (String × String)) (k : String),
      (alookup g k).isSome = true → (alookup (mergeChannelXml g l) k).isSome = true := by
  intro l
  induction l with
  | nil => intro g k h; exact h
  | cons q rest ih =>
    intro g k h
    simp only [mergeChannelXml, List.foldl_cons]
    apply ih
    split
    · exact h
    · exact (alookup_append_isSome g [q] k).mpr (Or.inl h)

theorem alookup_mergeChannelXml_isSome_right :
    ∀ (l g : List (String × String)) (k : String),
      (alookup l k).isSome = true → (alookup (mergeChannelXml g l) k).isSome = true := by
  intro l
  induction l with
  | nil => intro g k h; simp [alookup] at h
  | cons q rest ih =>
    intro g k h
    obtain ⟨k0, v0⟩ := q
    simp only [mergeChannelXml, List.foldl_cons]
    by_cases h0 : k0 = k
    · subst h0
      apply alookup_mergeChannelXml_isSome_left
      split
      · next hg => exact hg
      · refine (alookup_append_isSome g [(k0, v0)] k0).mpr (Or.inr ?_)
        simp [alookup]
    · apply ih
      simpa [alookup, h0] using h

/-! ## Lemmas about the Channel Indexer -/

theorem serializeChannel_ne_empty (c : RawChannel) : serializeChannel c ≠ "" := by
  intro h
  have h2 : (serializeChannel c).data.head? = some '<' := rfl
  rw [h] at h2
  simp at h2

theorem indexFold_keys_align (evs : List XmlEvent) :
    ∀ (acc : List (String × List String) × List (String × String)),
      (∀ k, (alookup acc.1 k).isSome = true ↔ (alookup acc.2 k).isSome = true) →
      ∀ k, (alookup (evs.foldl indexStep acc).1 k).isSome = true ↔
        (alookup (evs.foldl indexStep acc).2 k).isSome = true := by
  induction evs with
  | nil => intro acc h k; exact h k
  | cons e rest ih =>
    intro acc h k
    simp only [List.foldl_cons]
    apply ih
    intro k2
    match e with
    | .programme p => exact h k2
    | .channel c =>
      simp only [indexStep]
      split
      · exact h k2
      · rw [alookup_aset_isSome, alookup_aset_isSome]
        constructor
        · rintro (h1 | h1)
          · exact Or.inl h1
          · exact Or.inr ((h k2).mp h1)
        · rintro (h1 | h1)
          · exact Or.inl h1
          · exact Or.inr ((h k2).mpr h1)

theorem index_keys_align (doc : SourceDoc) (k : String) :
    (alookup (index_epg_channels doc).1 k).isSome = true ↔
      (alookup (index_epg_channels doc).2 k).isSome = true := by
  exact indexFold_keys_align doc.events ([], []) (fun _ => by simp [alookup]) k

theorem indexFold_values_ne_empty (evs : List XmlEvent) :
    ∀ (acc : List (String × List String) × List (String × String)),
      (∀ p ∈ acc.2, p.2 ≠ "") →
      ∀ p ∈ (evs.foldl indexStep acc).2, p.2 ≠ "" := by
  induction evs with
  | nil => intro acc h p hp; exact h p hp
  | cons e rest ih =>
    intro acc h p hp
    refine ih _ ?_ p (by simpa using hp)
    intro q hq
    match e with
    | .programme pr => exact h q hq
    | .channel c =>
      simp only [indexStep] at hq
      split at hq
      · exact h q hq
      · rcases mem_aset hq with h1 | h1
        · rw [h1]; exact serializeChannel_ne_empty c
        · exact h q h1

theorem index_values_ne_empty (doc : SourceDoc) :
    ∀ p ∈ (index_epg_channels doc).2, p.2 ≠ "" := by
  exact indexFold_values_ne_empty doc.events ([], []) (by intro p hp; simp at hp)

/-! ## Lemmas about the name inversion -/

theorem alookup_aappend (n cid : String) :
    ∀ (a : List (String × List String)) (nm : String),
      alookup (aappend a n cid) nm =
        if n = nm then some (((alookup a n).getD []) ++ [cid]) else alookup a nm := by
  intro a
  induction a with
  | nil =>
    intro nm
    by_cases h : n = nm <;> simp [aappend, alookup, h]
  | cons q rest ih =>
    intro nm
    obtain ⟨k0, vs⟩ := q
    simp only [aappend]
    by_cases h0 : k0 = n
    · subst h0
      by_cases h2 : k0 = nm
      · subst h2
        simp [alookup]
      · have hn : ¬ (k0 = nm) := h2
        simp [alookup, hn]
    · have hn : ¬ (n = k0) := fun hh => h0 hh.symm
      by_cases h2 : k0 = nm
      · subst h2
        simp [alookup, hn, h0]
      · simp only [alookup, if_neg h2, if_neg h0]
        exact ih nm

theorem nameFold_sound (K : String → Prop) :
    ∀ (norms : List String) (acc : List (String × List String)) (c : String),
      K c →
      (∀ nm ids cid, alookup acc nm = some ids → cid ∈ ids → K cid) →
      ∀ nm ids cid,
        alookup (norms.foldl (fun a2 n => aappend a2 n c) acc) nm = some ids →
        cid ∈ ids → K cid := by
  intro norms
  induction norms with
  | nil => intro acc c _ hinv nm ids cid h1 h2; exact hinv nm ids cid h1 h2
  | cons n rest ih =>
    intro acc c hc hinv nm ids cid h1 h2
    refine ih _ c hc ?_ nm ids cid h1 h2
    intro nm2 ids2 cid2 hl hm
    rw [alookup_aappend] at hl
    split at hl
    · cases hl
      rcases List.mem_append.mp hm with hm | hm
      · match hacc : alookup acc n with
        | none => rw [hacc] at hm; simp at hm
        | some l0 =>
          rw [hacc] at hm
          exact hinv n l0 cid2 hacc (by simpa using hm)
      · rw [List.mem_singleton.mp hm]
        exact hc
    · exact hinv nm2 ids2 cid2 hl hm

theorem build_name_to_ids_sound (l : List (String × List String)) :
    ∀ nm ids cid, alookup (build_name_to_ids l) nm = some ids → cid ∈ ids →
      (alookup l cid).isSome = true := by
  have haux : ∀ (entries : List (String × List String)) (acc : List (String × List String)),
      (∀ q ∈ entries, (alookup l q.1).isSome = true) →
      (∀ nm ids cid, alookup acc nm = some ids → cid ∈ ids → (alookup l cid).isSome = true) →
      ∀ nm ids cid,
        alookup (entries.foldl (fun acc2 p => p.2.foldl (fun a2 n => aappend a2 n p.1) acc2) acc) nm
          = some ids → cid ∈ ids → (alookup l cid).isSome = true := by
    intro entries
    induction entries with
    | nil => intro acc _ hinv nm ids cid h1 h2; exact hinv nm ids cid h1 h2
    | cons q rest ih =>
      intro acc hent hinv nm ids cid h1 h2
      refine ih _ (fun r hr => hent r (List.mem_cons_of_mem _ hr)) ?_ nm ids cid h1 h2
      exact nameFold_sound _ q.2 acc q.1 (hent q (List.mem_cons_self _ _)) hinv
  intro nm ids cid h1 h2
  refine haux l [] (fun q hq => ?_) (by intro nm2 ids2 cid2 h _; simp [alookup] at h) nm ids cid h1 h2
  obtain ⟨k0, vs⟩ := q
  exact mem_imp_alookup_isSome hq

/-! ## Lemmas about the Assignment Engine -/

theorem matched_alookup_isSome (st : AssignState) (doc : SourceDoc) (cid : String)
    (h : cid ∈ idMatchedOf st doc ∪ nameMatchedOf st doc) :
    (alookup (index_epg_channels doc).1 cid).isSome = true := by
  rcases Finset.mem_union.mp h with h | h
  · exact (Finset.mem_filter.mp h).2
  · simp only [nameMatchedOf, Finset.mem_biUnion] at h
    obtain ⟨nm, _, hcid⟩ := h
    rw [Option.mem_toFinset] at hcid
    match hl : alookup (build_name_to_ids (index_epg_channels doc).1) nm with
    | none => rw [hl] at hcid; simp at hcid
    | some ids =>
      rw [hl] at hcid
      have hcid2 : cid ∈ ids.head? := hcid
      have hmem : cid ∈ ids := by
        match ids with
        | [] => simp at hcid2
        | x :: xs =>
          have hx : x = cid := by simpa using hcid2
          rw [← hx]
          exact List.mem_cons_self _ _
      exact build_name_to_ids_sound _ nm ids cid hl hmem

theorem mem_updateAssign :
    ∀ {l : List (SourceDoc × Finset String)} {d : SourceDoc} {v : Finset String}
      {p : SourceDoc × Finset String}, p ∈ updateAssign l d v → p.2 = v ∨ p ∈ l := by
  intro l
  induction l with
  | nil =>
    intro d v p h
    simp only [updateAssign, List.mem_singleton] at h
    subst h
    exact Or.inl rfl
  | cons q rest ih =>
    intro d v p h
    obtain ⟨d0, v0⟩ := q
    simp only [updateAssign] at h
    split at h
    · rcases List.mem_cons.mp h with h | h
      · subst h; exact Or.inl rfl
      · exact Or.inr (List.mem_cons_of_mem _ h)
    · rcases List.mem_cons.mp h with h | h
      · subst h; exact Or.inr (List.mem_cons_self _ _)
      · rcases ih h with h | h
        · exact Or.inl h
        · exact Or.inr (List.mem_cons_of_mem _ h)

theorem processSource_assignedGone (st : AssignState) (doc : SourceDoc)
    (h : ∀ pr ∈ st.assignments, ∀ cid ∈ pr.2, cid ∉ st.remainingIds) :
    ∀ pr ∈ (processSource st doc).assignments, ∀ cid ∈ pr.2,
      cid ∉ (processSource st doc).remainingIds := by
  intro pr hpr cid hcid
  by_cases hm : idMatchedOf st doc ∪ nameMatchedOf st doc = ∅
  · simp only [processSource, if_pos hm] at hpr ⊢
    exact h pr hpr cid hcid
  · simp only [processSource, if_neg hm] at hpr ⊢
    rcases mem_updateAssign hpr with h1 | h1
    · rw [h1] at hcid
      exact Finset.not_mem_sdiff_of_mem_right hcid
    · intro hmem
      exact h pr h1 cid hcid (Finset.mem_sdiff.mp hmem).1

theorem assignLoop_assignedGone (docs : List SourceDoc) :
    ∀ (st : AssignState),
      (∀ pr ∈ st.assignments, ∀ cid ∈ pr.2, cid ∉ st.remainingIds) →
      ∀ pr ∈ (assignLoop st docs).assignments, ∀ cid ∈ pr.2,
        cid ∉ (assignLoop st docs).remainingIds := by
  induction docs with
  | nil => intro st h; exact h
  | cons doc rest ih =>
    intro st h
    simp only [assignLoop]
    split
    · exact h
    · exact ih _ (processSource_assignedGone st doc h)

/-! ## Claim C1 — first-match-wins -/

/-- Counterexample for C1 as stated: in the run `envC1` (two name-only
targets, two sources each holding channel `x` under one of the two names),
the channel id `x` appears in the assignment sets of both sources, and the
run completes normally with exit code 0. -/
theorem spec_c1_counterexample :
    (assignFinal envC1).assignments.map (fun pr => (pr.1.path, pr.2)) =
      [("a.xml", {"x"}), ("b.xml", {"x"})] ∧
    (main envC1).exitCode = 0 := by
  decide

/-- C1 (amended): first-match-wins holds for the exact-id matching path —
an id recorded in any source's assignment set is removed from
`remaining_ids`, so no later source can match it via the id path; assignment
sets are nevertheless not pairwise disjoint in general, because a later
source can acquire an already-assigned id through the name fallback (see the
counterexample).  Here `pre` ranges over the prefix of fetched sources
processed before the later source `d`. -/
theorem spec_c1_amended (wi wn : Finset String) (pre : List SourceDoc) (d : SourceDoc) :
    ∀ pr ∈ (assignLoop (AssignState.init wi wn) pre).assignments,
      pr.2 ∩ idMatchedOf (assignLoop (AssignState.init wi wn) pre) d = ∅ := by
  intro pr hpr
  have hinv := assignLoop_assignedGone pre (AssignState.init wi wn)
    (by intro pr2 hpr2; simp [AssignState.init] at hpr2)
  apply Finset.eq_empty_of_forall_not_mem
  intro cid hc
  have h1 := (Finset.mem_inter.mp hc).1
  have h2 := (Finset.mem_inter.mp hc).2
  have h3 : cid ∈ (assignLoop (AssignState.init wi wn) pre).remainingIds :=
    (Finset.mem_filter.mp h2).1
  exact hinv pr hpr cid h1 h3

/-- Witness for C1's amended statement, at the counterexample run: source
`a.xml`'s assignment set is disjoint from the id-path matches of the later
source `b.xml`. -/
theorem spec_c1_witness :
    (docA, ({"x"} : Finset String)) ∈
      (assignLoop (AssignState.init ∅ {"alpha", "beta"}) [docA]).assignments ∧
    ({"x"} : Finset String) ∩
      idMatchedOf (assignLoop (AssignState.init ∅ {"alpha", "beta"}) [docA]) docB = ∅ :=
  ⟨by decide,
   spec_c1_amended ∅ {"alpha", "beta"} [docA] docB (docA, {"x"}) (by decide)⟩

/-! ## Cardinality bounds for the assignment pass -/

theorem processSource_namesBound (st : AssignState) (doc : SourceDoc) (N : Nat)
    (h0 : st.remainingIds = ∅)
    (h1 : st.keptIds.card + st.remainingNames.card ≤ N) :
    (processSource st doc).remainingIds = ∅ ∧
    (processSource st doc).keptIds.card + (processSource st doc).remainingNames.card ≤ N := by
  have hid : idMatchedOf st doc = ∅ := by simp [idMatchedOf, h0]
  by_cases hm : idMatchedOf st doc ∪ nameMatchedOf st doc = ∅
  · simp only [processSource, if_pos hm]
    exact ⟨h0, h1⟩
  · simp only [processSource, if_neg hm]
    refine ⟨by simp [h0], ?_⟩
    rw [hid, Finset.empty_union]
    have key1 : (st.keptIds ∪ nameMatchedOf st doc).card ≤
        st.keptIds.card + (nameMatchedOf st doc).card := Finset.card_union_le _ _
    have key2 : (nameMatchedOf st doc).card ≤
        (st.remainingNames.filter fun nm =>
          ¬ (alookup (build_name_to_ids (index_epg_channels doc).1) nm = none)).card := by
      have hsub : nameMatchedOf st doc ⊆
          (st.remainingNames.filter fun nm =>
            ¬ (alookup (build_name_to_ids (index_epg_channels doc).1) nm = none)).biUnion
          (fun nm => ((alookup (build_name_to_ids (index_epg_channels doc).1) nm).bind
            List.head?).toFinset) := by
        intro cid hc
        simp only [nameMatchedOf, Finset.mem_biUnion] at hc
        obtain ⟨nm, hnm, hf⟩ := hc
        refine Finset.mem_biUnion.mpr ⟨nm, Finset.mem_filter.mpr ⟨hnm, ?_⟩, hf⟩
        intro hnone
        rw [hnone] at hf
        simp at hf
      refine le_trans (Finset.card_le_card hsub) ?_
      have := Finset.card_biUnion_le_card_mul
        (st.remainingNames.filter fun nm =>
          ¬ (alookup (build_name_to_ids (index_epg_channels doc).1) nm = none))
        (fun nm => ((alookup (build_name_to_ids (index_epg_channels doc).1) nm).bind
          List.head?).toFinset) 1
        (by
          intro nm _
          cases hopt : (alookup (build_name_to_ids (index_epg_channels doc).1) nm).bind
              List.head? with
          | none => simp [hopt]
          | some x => simp [hopt])
      simpa using this
    have key3 : (st.remainingNames.filter fun nm =>
          alookup (build_name_to_ids (index_epg_channels doc).1) nm = none).card +
        (st.remainingNames.filter fun nm =>
          ¬ (alookup (build_name_to_ids (index_epg_channels doc).1) nm = none)).card =
        st.remainingNames.card :=
      Finset.filter_card_add_filter_neg_card_eq_card _
    omega

theorem assignLoop_namesBound (docs : List SourceDoc) (N : Nat) :
    ∀ st : AssignState, st.remainingIds = ∅ →
      st.keptIds.card + st.remainingNames.card ≤ N →
      (assignLoop st docs).remainingIds = ∅ ∧
      (assignLoop st docs).keptIds.card + (assignLoop st docs).remainingNames.card ≤ N := by
  induction docs with
  | nil => intro st h0 h1; exact ⟨h0, h1⟩
  | cons doc rest ih =>
    intro st h0 h1
    simp only [assignLoop]
    split
    · exact ⟨h0, h1⟩
    · obtain ⟨g0, g1⟩ := processSource_namesBound st doc N h0 h1
      exact ih _ g0 g1

theorem processSource_idsBound (st : AssignState) (doc : SourceDoc) (N : Nat)
    (h0 : st.remainingNames = ∅)
    (h1 : st.keptIds.card + st.remainingIds.card ≤ N) :
    (processSource st doc).remainingNames = ∅ ∧
    (processSource st doc).keptIds.card + (processSource st doc).remainingIds.card ≤ N := by
  have hnm : nameMatchedOf st doc = ∅ := by simp [nameMatchedOf, h0]
  by_cases hm : idMatchedOf st doc ∪ nameMatchedOf st doc = ∅
  · simp only [processSource, if_pos hm]
    exact ⟨h0, h1⟩
  · simp only [processSource, if_neg hm]
    refine ⟨by simp [h0], ?_⟩
    rw [hnm, Finset.union_empty]
    have hsubm : idMatchedOf st doc ⊆ st.remainingIds := Finset.filter_subset _ _
    have e1 : (st.remainingIds \ idMatchedOf st doc).card =
        st.remainingIds.card - (idMatchedOf st doc).card := Finset.card_sdiff hsubm
    have e2 : (st.keptIds ∪ idMatchedOf st doc).card ≤
        st.keptIds.card + (idMatchedOf st doc).card := Finset.card_union_le _ _
    have e3 : (idMatchedOf st doc).card ≤ st.remainingIds.card := Finset.card_le_card hsubm
    omega

theorem assignLoop_idsBound (docs : List SourceDoc) (N : Nat) :
    ∀ st : AssignState, st.remainingNames = ∅ →
      st.keptIds.card + st.remainingIds.card ≤ N →
      (assignLoop st docs).remainingNames = ∅ ∧
      (assignLoop st docs).keptIds.card + (assignLoop st docs).remainingIds.card ≤ N := by
  induction docs with
  | nil => intro st h0 h1; exact ⟨h0, h1⟩
  | cons doc rest ih =>
    intro st h0 h1
    simp only [assignLoop]
    split
    · exact ⟨h0, h1⟩
    · obtain ⟨g0, g1⟩ := processSource_idsBound st doc N h0 h1
      exact ih _ g0 g1

theorem keptIds_le_targetChannels (env : Env)
    (h : (targets env).1 = ∅ ∨ (targets env).2 = ∅) :
    (assignFinal env).keptIds.card ≤ targetChannels env := by
  by_cases hwi : (targets env).1 = ∅
  · have hb := assignLoop_namesBound (fetchedDocs env) (targets env).2.card
      (AssignState.init (targets env).1 (targets env).2)
      (by simp [AssignState.init, hwi]) (by simp [AssignState.init])
    have ht : targetChannels env = (targets env).2.card := by simp [targetChannels, hwi]
    rw [ht]
    calc (assignFinal env).keptIds.card
        ≤ (assignFinal env).keptIds.card + (assignFinal env).remainingNames.card :=
          Nat.le_add_right _ _
      _ ≤ (targets env).2.card := hb.2
  · have hwn : (targets env).2 = ∅ := h.resolve_left hwi
    have hb := assignLoop_idsBound (fetchedDocs env) (targets env).1.card
      (AssignState.init (targets env).1 (targets env).2)
      (by simp [AssignState.init, hwn]) (by simp [AssignState.init])
    have ht : targetChannels env = (targets env).1.card := by simp [targetChannels, hwi]
    rw [ht]
    calc (assignFinal env).keptIds.card
        ≤ (assignFinal env).keptIds.card + (assignFinal env).remainingIds.card :=
          Nat.le_add_right _ _
      _ ≤ (targets env).1.card := hb.2

theorem mainCoverage_nonneg (env : Env) : 0 ≤ mainCoverage env := by
  unfold mainCoverage
  exact div_nonneg (Nat.cast_nonneg _) (Nat.cast_nonneg _)

theorem mainCoverage_le_one (env : Env)
    (hcard : (assignFinal env).keptIds.card ≤ targetChannels env) :
    mainCoverage env ≤ 1 := by
  unfold mainCoverage
  have hd1 : (1 : ℕ) ≤ max 1 (targetChannels env) := le_max_left _ _
  have hd : (0 : ℚ) < ((max 1 (targetChannels env) : ℕ) : ℚ) := by
    exact_mod_cast lt_of_lt_of_le Nat.zero_lt_one hd1
  rw [div_le_one hd]
  have h2 : (assignFinal env).keptIds.card ≤ max 1 (targetChannels env) :=
    le_trans hcard (le_max_right _ _)
  exact_mod_cast h2

/-! ## Claim C2 — coverage bounds -/

/-- Counterexample for C2 as stated: the run `envC2` reaches the coverage
computation (it finishes with exit code 0), yet records
`matched_channels = 2 > target_channels = 1` and has coverage `2 > 1`:
one exact-id target plus two name-only fallbacks, with both names matched to
ids outside `wanted_ids`, make the numerator exceed the id-count
denominator. -/
theorem spec_c2_counterexample :
    (assignFinal envC2).keptIds.card = 2 ∧ targetChannels envC2 = 1 ∧
    (main envC2).report.matched = some 2 ∧ (main envC2).report.targets = some 1 ∧
    (main envC2).exitCode = 0 ∧ (1 : ℚ) < mainCoverage envC2 := by
  decide

/-- C2 (amended): the coverage ratio is always non-negative, and whenever
`wanted_ids` is empty (so the denominator counts `wanted_names`) or
`wanted_names` is empty (so every match comes from `wanted_ids`),
`matched_channels ≤ target_channels` and the ratio lies in `[0, 1]`.  When
both target sets are non-empty, name-fallback matches of ids outside
`wanted_ids` can push `matched_channels` above `target_channels` and the
ratio above 1 (see the counterexample). -/
theorem spec_c2_amended (env : Env) :
    0 ≤ mainCoverage env ∧
    (((targets env).1 = ∅ ∨ (targets env).2 = ∅) →
      (assignFinal env).keptIds.card ≤ targetChannels env ∧ mainCoverage env ≤ 1) := by
  refine ⟨mainCoverage_nonneg env, fun h => ?_⟩
  have hc := keptIds_le_targetChannels env h
  exact ⟨hc, mainCoverage_le_one env hc⟩

/-- Witness for C2's amended statement, at the name-only run `envC1`
(`wanted_ids = ∅`). -/
theorem spec_c2_witness :
    0 ≤ mainCoverage envC1 ∧
    ((assignFinal envC1).keptIds.card ≤ targetChannels envC1 ∧ mainCoverage envC1 ≤ 1) :=
  ⟨(spec_c2_amended envC1).1, (spec_c2_amended envC1).2 (Or.inl (by decide))⟩

/-! ## Claim C3 — coverage-gate decision -/

theorem main_eq_gate (env : Env) (hcur : env.curatedExists = true)
    (hurls : ¬ env.epgUrls = []) (hdocs : ¬ fetchedDocs env = [])
    (hkept : ¬ (assignFinal env).keptIds = ∅) :
    main env = coverageGate env { env.initialReport with sources := some (perUrlStatus env) } := by
  have h1 : ¬ (env.curatedExists = false) := by rw [hcur]; simp
  simp only [main, if_neg h1, if_neg hurls, if_neg hdocs, if_neg hkept]

/-- C3 (confirmed): for every run reaching the coverage computation, with
the hard threshold at or below the soft threshold (as the decision table
presupposes): below the hard threshold the hard-fail warning is added, the
exit code is 2 and no output artifact is written; in `[hard, soft)` the
soft warning is added, the output is written and the exit code is 0; at or
above the soft threshold the output is written and the exit code is 0. -/
theorem spec_c3 (env : Env) (hcur : env.curatedExists = true) (hurls : env.epgUrls ≠ [])
    (hdocs : fetchedDocs env ≠ []) (hkept : (assignFinal env).keptIds ≠ ∅)
    (horder : env.hardFail ≤ env.softMin) :
    (mainCoverage env < env.hardFail →
       hardWarnMsg (mainCoverage env) env.hardFail ∈ (main env).report.warnings ∧
       (main env).exitCode = 2 ∧ (main env).output = none) ∧
    (env.hardFail ≤ mainCoverage env → mainCoverage env < env.softMin →
       softWarnMsg (mainCoverage env) env.softMin ∈ (main env).report.warnings ∧
       (main env).output.isSome = true ∧ (main env).exitCode = 0) ∧
    (env.softMin ≤ mainCoverage env →
       (main env).output.isSome = true ∧ (main env).exitCode = 0) := by
  rw [main_eq_gate env hcur hurls hdocs hkept]
  simp only [coverageGate]
  refine ⟨?_, ?_, ?_⟩
  · intro hc
    rw [if_pos hc]
    refine ⟨?_, rfl, rfl⟩
    simp [add_warning]
  · intro hge hlt
    rw [if_neg (not_lt.mpr hge), if_pos hlt]
    refine ⟨?_, rfl, rfl⟩
    simp [add_warning]
  · intro hge
    rw [if_neg (not_lt.mpr (le_trans horder hge))]
    exact ⟨rfl, rfl⟩

/-- Witness for C3, at the run `envC3` whose coverage 1/2 lies between the
hard threshold 0.30 and the soft threshold 0.80: the soft warning is
recorded, the output is written, and the exit code is 0. -/
theorem spec_c3_witness :
    softWarnMsg (mainCoverage envC3) envC3.softMin ∈ (main envC3).report.warnings ∧
    (main envC3).output.isSome = true ∧ (main envC3).exitCode = 0 :=
  (spec_c3 envC3 rfl (by decide) (by decide) (by decide) (by decide)).2.1
    (by decide) (by decide)

/-! ## Record invariants of the assignment pass -/

theorem processSource_records (st : AssignState) (doc : SourceDoc)
    (h1 : ∀ p ∈ st.globalXml, p.2 ≠ "")
    (h2 : ∀ cid ∈ st.keptIds, (alookup st.globalXml cid).isSome = true) :
    (∀ p ∈ (processSource st doc).globalXml, p.2 ≠ "") ∧
    (∀ cid ∈ (processSource st doc).keptIds,
      (alookup (processSource st doc).globalXml cid).isSome = true) := by
  have hg1 : ∀ p ∈ mergeChannelXml st.globalXml (index_epg_channels doc).2, p.2 ≠ "" := by
    intro p hp
    rcases mem_mergeChannelXml _ _ p hp with h | h
    · exact h1 p h
    · exact index_values_ne_empty doc p h
  have hg2 : ∀ cid ∈ st.keptIds ∪ (idMatchedOf st doc ∪ nameMatchedOf st doc),
      (alookup (mergeChannelXml st.globalXml (index_epg_channels doc).2) cid).isSome = true := by
    intro cid hc
    rcases Finset.mem_union.mp hc with hc | hc
    · exact alookup_mergeChannelXml_isSome_left _ _ _ (h2 cid hc)
    · have h3 := matched_alookup_isSome st doc cid hc
      have h4 := (index_keys_align doc cid).mp h3
      exact alookup_mergeChannelXml_isSome_right _ _ _ h4
  by_cases hm : idMatchedOf st doc ∪ nameMatchedOf st doc = ∅
  · simp only [processSource, if_pos hm]
    refine ⟨hg1, ?_⟩
    intro cid hc
    exact alookup_mergeChannelXml_isSome_left _ _ _ (h2 cid hc)
  · simp only [processSource, if_neg hm]
    exact ⟨hg1, hg2⟩

theorem assignLoop_records (docs : List SourceDoc) :
    ∀ st : AssignState,
      (∀ p ∈ st.globalXml, p.2 ≠ "") →
      (∀ cid ∈ st.keptIds, (alookup st.globalXml cid).isSome = true) →
      (∀ p ∈ (assignLoop st docs).globalXml, p.2 ≠ "") ∧
      (∀ cid ∈ (assignLoop st docs).keptIds,
        (alookup (assignLoop st docs).globalXml cid).isSome = true) := by
  induction docs with
  | nil => intro st h1 h2; exact ⟨h1, h2⟩
  | cons doc rest ih =>
    intro st h1 h2
    simp only [assignLoop]
    split
    · exact ⟨h1, h2⟩
    · obtain ⟨g1, g2⟩ := processSource_records st doc h1 h2
      exact ih _ g1 g2

theorem assignFinal_record (env : Env) :
    ∀ cid ∈ (assignFinal env).keptIds,
      ∃ s, alookup (assignFinal env).globalXml cid = some s ∧ s ≠ "" := by
  intro cid hc
  have h : (∀ p ∈ (assignFinal env).globalXml, p.2 ≠ "") ∧
      (∀ cid ∈ (assignFinal env).keptIds,
        (alookup (assignFinal env).globalXml cid).isSome = true) :=
    assignLoop_records (fetchedDocs env)
      (AssignState.init (targets env).1 (targets env).2)
      (by intro p hp; simp [AssignState.init] at hp)
      (by intro cid2 hc2; simp [AssignState.init] at hc2)
  have hs := h.2 cid hc
  match hl : alookup (assignFinal env).globalXml cid with
  | none => rw [hl] at hs; simp at hs
  | some s => exact ⟨s, rfl, h.1 (cid, s) (alookup_mem hl)⟩

theorem filterMap_eq_map_of_forall {α β : Type} :
    ∀ (l : List α) (f : α → Option β) (g : α → β),
      (∀ a ∈ l, f a = some (g a)) → l.filterMap f = l.map g := by
  intro l
  induction l with
  | nil => intro f g _; rfl
  | cons a rest ih =>
    intro f g h
    simp only [List.filterMap_cons, List.map_cons]
    rw [h a (List.mem_cons_self _ _), ih f g (fun b hb => h b (List.mem_cons_of_mem _ hb))]

/-! ## Claim C9 — every kept id has a stored record -/

/-- C9 (confirmed): at the end of the assignment pass of any run, every id
in `kept_all_ids` is a key of the global id → serialized-record map with a
non-empty record, and the writer's channel pass — which skips ids with a
missing or empty record — emits exactly one channel element per kept id
(its length equals the kept-set cardinality, so the guard is never taken). -/
theorem spec_c9 (env : Env) :
    (∀ cid ∈ (assignFinal env).keptIds,
       ∃ s, alookup (assignFinal env).globalXml cid = some s ∧ s ≠ "") ∧
    (((assignFinal env).keptIds.sort (fun a b => a ≤ b)).filterMap (fun cid =>
        match alookup (assignFinal env).globalXml cid with
        | some s => if s = "" then none else some s
        | none => none)).length = (assignFinal env).keptIds.card := by
  refine ⟨assignFinal_record env, ?_⟩
  rw [filterMap_eq_map_of_forall _ _
    (fun cid => (alookup (assignFinal env).globalXml cid).getD "")]
  · rw [List.length_map, Finset.length_sort]
  · intro cid hcid
    obtain ⟨s, hs, hne⟩ := assignFinal_record env cid ((Finset.mem_sort _).mp hcid)
    rw [hs]
    simp [hne]

/-- Witness for C9, at the successful run `envOK` and its kept id `x`. -/
theorem spec_c9_witness :
    (alookup (assignFinal envOK).globalXml "x").isSome = true ∧
    (((assignFinal envOK).keptIds.sort (fun a b => a ≤ b)).filterMap (fun cid =>
        match alookup (assignFinal envOK).globalXml cid with
        | some s => if s = "" then none else some s
        | none => none)).length = (assignFinal envOK).keptIds.card := by
  obtain ⟨s, hs, _⟩ := (spec_c9 envOK).1 "x" (by decide)
  exact ⟨by rw [hs]; rfl, (spec_c9 envOK).2⟩

/-! ## Claim C7 — merge-writer output shape -/

theorem processSource_assignNonempty (st : AssignState) (doc : SourceDoc)
    (h : ∀ pr ∈ st.assignments, pr.2 ≠ ∅) :
    ∀ pr ∈ (processSource st doc).assignments, pr.2 ≠ ∅ := by
  intro pr hpr
  by_cases hm : idMatchedOf st doc ∪ nameMatchedOf st doc = ∅
  · simp only [processSource, if_pos hm] at hpr
    exact h pr hpr
  · simp only [processSource, if_neg hm] at hpr
    rcases mem_updateAssign hpr with h1 | h1
    · rw [h1]; exact hm
    · exact h pr h1

theorem assignLoop_assignNonempty (docs : List SourceDoc) :
    ∀ st : AssignState, (∀ pr ∈ st.assignments, pr.2 ≠ ∅) →
      ∀ pr ∈ (assignLoop st docs).assignments, pr.2 ≠ ∅ := by
  induction docs with
  | nil => intro st h; exact h
  | cons doc rest ih =>
    intro st h
    simp only [assignLoop]
    split
    · exact h
    · exact ih _ (processSource_assignNonempty st doc h)

theorem assignFinal_assignNonempty (env : Env) :
    ∀ pr ∈ (assignFinal env).assignments, pr.2 ≠ ∅ :=
  assignLoop_assignNonempty (fetchedDocs env)
    (AssignState.init (targets env).1 (targets env).2)
    (by intro pr hpr; simp [AssignState.init] at hpr)

theorem main_output_eq (env : Env) (out : WriterOutput)
    (h : (main env).output = some out) :
    out = write_final_xml (assignFinal env).keptIds (assignFinal env).globalXml
      (assignFinal env).assignments := by
  by_cases h1 : env.curatedExists = false
  · simp [main, h1] at h
  · by_cases h2 : env.epgUrls = []
    · simp [main, if_neg h1, h2] at h
    · by_cases h3 : fetchedDocs env = []
      · simp [main, if_neg h1, if_neg h2, h3] at h
      · by_cases h4 : (assignFinal env).keptIds = ∅
        · simp [main, if_neg h1, if_neg h2, if_neg h3, h4] at h
        · simp only [main, if_neg h1, if_neg h2, if_neg h3, if_neg h4, coverageGate] at h
          split at h
          · simp at h
          · exact (Option.some_inj.mp h).symm

/-- C7 (confirmed): every written output document consists of the XML
declaration and the root opening tag, then exactly one stored serialized
channel record per kept id in lexicographically sorted id order, then, per
recorded assignment entry in insertion (priority) order, exactly the
programmes of that source whose stripped channel attribute is in the
source's assigned id set, then the closing root tag; the programme pass
re-opens exactly the assigned sources (every recorded assignment set is
non-empty, and unassigned sources never appear). -/
theorem spec_c7 (env : Env) (out : WriterOutput) (h : (main env).output = some out) :
    out.lines = xmlDeclLine :: tvOpenLine ::
      ((((assignFinal env).keptIds.sort (fun a b => a ≤ b)).map fun cid =>
          (alookup (assignFinal env).globalXml cid).getD "") ++
       ((assignFinal env).assignments.flatMap fun pr => sourceProgrammeLines pr.1 pr.2) ++
       [tvCloseLine]) ∧
    out.opened = (assignFinal env).assignments.map fun pr => pr.1 := by
  rw [main_output_eq env out h]
  have hfilter : (assignFinal env).assignments.filter (fun pr => decide (pr.2 ≠ ∅)) =
      (assignFinal env).assignments := by
    rw [List.filter_eq_self]
    intro pr hpr
    simpa using assignFinal_assignNonempty env pr hpr
  have hchan : (((assignFinal env).keptIds.sort (fun a b => a ≤ b)).filterMap fun cid =>
      match alookup (assignFinal env).globalXml cid with
      | some s => if s = "" then none else some s
      | none => none) =
      ((assignFinal env).keptIds.sort (fun a b => a ≤ b)).map fun cid =>
        (alookup (assignFinal env).globalXml cid).getD "" := by
    apply filterMap_eq_map_of_forall
    intro cid hcid
    obtain ⟨s, hs, hne⟩ := assignFinal_record env cid ((Finset.mem_sort _).mp hcid)
    rw [hs]
    simp [hne]
  constructor
  · simp only [write_final_xml]
    rw [hfilter, hchan]
  · simp only [write_final_xml]
    rw [hfilter]

/-- Witness for C7, at the successful run `envOK` and its written output. -/
theorem spec_c7_witness :
    (main envOK).output = some outOK ∧
    (outOK.lines = xmlDeclLine :: tvOpenLine ::
      ((((assignFinal envOK).keptIds.sort (fun a b => a ≤ b)).map fun cid =>
          (alookup (assignFinal envOK).globalXml cid).getD "") ++
       ((assignFinal envOK).assignments.flatMap fun pr => sourceProgrammeLines pr.1 pr.2) ++
       [tvCloseLine]) ∧
     outOK.opened = (assignFinal envOK).assignments.map fun pr => pr.1) :=
  ⟨rfl, spec_c7 envOK outOK rfl⟩

end StreamLedger
